import Mathlib

/-!
Verification development for the poly-latency-arb-bot repository.

The development embeds the three core components of the repository:

* the Binance spot streaming feed (src/data/spot/binance_ws.ts) — per-symbol
  downsampled sliding window and windowed-return move detection;
* the Polymarket polling feed (src/data/polymarket/market_feed.ts) —
  orderbook normalization, error-driven exponential backoff, and the
  in-flight no-overlap guard;
* the latency signal engine (src/strategy/latency_signal.ts) — snapshot
  history maintenance and the ordered gate pipeline deciding emit vs discard.

Prices and basis-point quantities are modelled as rationals; timestamps
in milliseconds as integers.  JavaScript string-to-number parsing
(parseFloat) is modelled by an `Option` rational: `none` stands for a
NaN / non-finite parse result.  Maps keyed by symbol are modelled by their
per-symbol projection, since every operation of the source reads and
writes only the entry of the symbol it is processing.
-/

namespace PolyLatencyArb

/-! Part 1: the spot streaming feed (src/data/spot/binance_ws.ts). -/

/-- Direction of a price move, the literal type up or down of the source. -/
inductive Direction
  | up
  | down
deriving DecidableEq, Repr

/-- SpotTick of src/data/spot/types.ts. -/
structure SpotTick where
  symbol : String
  price : ℚ
  tsExchange : ℤ
  tsLocal : ℤ
deriving DecidableEq, Repr, Inhabited

/-- PriceReturn of src/data/spot/types.ts. -/
structure PriceReturn where
  symbol : String
  currentPrice : ℚ
  pastPrice : ℚ
  returnBps : ℚ
  direction : Direction
  windowMs : ℤ
deriving DecidableEq, Repr

/-- The spot-feed configuration values read from env by binance_ws.ts:
SPOT_BUFFER_SAMPLE_MS, SPOT_RETURN_WINDOW_MS, SPOT_MOVE_THRESHOLD_BPS. -/
structure FeedConfig where
  sampleIntervalMs : ℤ
  returnWindowMs : ℤ
  moveThresholdBps : ℚ
deriving Repr

/-- Per-symbol projection of the BinanceSpotFeed state: the priceBuffer
entry, the latestPrice entry, and the lastSampleTime entry of the symbol
(JavaScript reads the latter with a default of 0 via the expression
lastSampleTime.get(symbol) or 0). -/
structure FeedSymState where
  buffer : List SpotTick
  latestPrice : Option ℚ
  lastSampleTime : ℤ
deriving DecidableEq, Repr

/-- The feed state before any tick of the symbol arrived: empty buffer,
no latest price, default last sample time 0. -/
def initFeedSymState : FeedSymState := ⟨[], none, 0⟩

/-- BinanceSpotFeed.calculateReturn: bps return between two ticks,
direction up exactly when the return is strictly positive, window length
as the local-timestamp difference. -/
def calculateReturn (current past : SpotTick) : PriceReturn :=
  let returnBps := (current.price / past.price - 1) * 10000
  { symbol := current.symbol
    currentPrice := current.price
    pastPrice := past.price
    returnBps := returnBps
    direction := if 0 < returnBps then .up else .down
    windowMs := current.tsLocal - past.tsLocal }

/-- The incremental-shift loop of BinanceSpotFeed.processTick: drop ticks
from the head while the oldest tick's local time is strictly before the
cutoff. -/
def pruneWindow (cutoff : ℤ) : List SpotTick → List SpotTick
  | [] => []
  | t :: rest => if t.tsLocal < cutoff then pruneWindow cutoff rest else t :: rest

/-- BinanceSpotFeed.processTick on the state of the tick's symbol.
Always records the latest price; admits the tick into the window only
when the downsample gate passes, pruning the window head against the
cutoff after the append; then, whenever the window holds more than one
tick, computes the return between the incoming tick and the oldest
resident and emits it as a move event exactly when the window spans at
least 80 percent of the configured return window and the absolute return
meets the move threshold. -/
def processTick (cfg : FeedConfig) (st : FeedSymState) (tick : SpotTick) :
    FeedSymState × Option PriceReturn :=
  let shouldSample := cfg.sampleIntervalMs ≤ tick.tsLocal - st.lastSampleTime
  let st1 : FeedSymState :=
    if shouldSample then
      { buffer := pruneWindow (tick.tsLocal - cfg.returnWindowMs) (st.buffer ++ [tick])
        latestPrice := some tick.price
        lastSampleTime := tick.tsLocal }
    else
      { st with latestPrice := some tick.price }
  let ev : Option PriceReturn :=
    if 1 < st1.buffer.length then
      let r := calculateReturn tick st1.buffer.headI
      if (4 : ℚ) / 5 * (cfg.returnWindowMs : ℚ) ≤ (r.windowMs : ℚ) ∧
          cfg.moveThresholdBps ≤ |r.returnBps| then
        some r
      else none
    else none
  (st1, ev)

/-- Fold of processTick over a list of arriving ticks, keeping the state. -/
def processTicks (cfg : FeedConfig) (st : FeedSymState) (ticks : List SpotTick) :
    FeedSymState :=
  ticks.foldl (fun s t => (processTick cfg s t).1) st

/-! Part 2: the Polymarket polling feed (src/data/polymarket/market_feed.ts). -/

/-- PolyOrderbookLevel of src/data/polymarket/types.ts.  The source holds
price and size as strings and converts with parseFloat; the fields here
are the parse results, none standing for NaN. -/
structure PolyOrderbookLevel where
  price : Option ℚ
  size : Option ℚ
deriving DecidableEq, Repr, Inhabited

/-- PolyOrderbook of src/data/polymarket/types.ts (bid and ask levels). -/
structure PolyOrderbook where
  bids : List PolyOrderbookLevel
  asks : List PolyOrderbookLevel
deriving DecidableEq, Repr

/-- PolyMarketData of src/data/polymarket/types.ts. -/
structure PolyMarketData where
  tokenId : String
  midPrice : ℚ
  bestBid : ℚ
  bestAsk : ℚ
  spreadBps : ℚ
  depthTopN : ℚ
  tsLocal : ℤ
deriving DecidableEq, Repr

/-- The polling-feed configuration: POLYMARKET_TOKEN_ID,
POLY_SNAPSHOT_INTERVAL_MS, POLY_DEPTH_LEVELS. -/
structure PollConfig where
  tokenId : String
  baseIntervalMs : ℤ
  depthLevels : ℕ
deriving Repr

/-- The fixed maxBackoffMs field of PolymarketFeed. -/
def maxBackoffMs : ℤ := 30000

/-- Comparator of PolymarketFeed.sortBidsDesc as a sort-before relation:
descending by parsed price; a NaN comparison result keeps relative order
(ECMAScript treats a NaN comparator result as zero), modelled by treating
any pair with an unparseable price as equal. -/
def bidCmpLe (a b : PolyOrderbookLevel) : Bool :=
  match a.price, b.price with
  | some pa, some pb => pb ≤ pa
  | _, _ => true

/-- Comparator of PolymarketFeed.sortAsksAsc as a sort-before relation:
ascending by parsed price, NaN comparisons keeping relative order. -/
def askCmpLe (a b : PolyOrderbookLevel) : Bool :=
  match a.price, b.price with
  | some pa, some pb => pa ≤ pb
  | _, _ => true

/-- PolymarketFeed.sortBidsDesc: stable sort, highest price first. -/
def sortBidsDesc (bids : List PolyOrderbookLevel) : List PolyOrderbookLevel :=
  bids.mergeSort bidCmpLe

/-- PolymarketFeed.sortAsksAsc: stable sort, lowest price first. -/
def sortAsksAsc (asks : List PolyOrderbookLevel) : List PolyOrderbookLevel :=
  asks.mergeSort askCmpLe

/-- PolymarketFeed.calculateDepth: sum of the parsed sizes over the top
depthLevels entries of each sorted side, skipping NaN sizes (adding a NaN
size is skipped, which the model renders as adding 0). -/
def calculateDepth (topN : ℕ) (sortedBids sortedAsks : List PolyOrderbookLevel) : ℚ :=
  ((sortedBids.take topN).map (fun l => l.size.getD 0)).sum +
    ((sortedAsks.take topN).map (fun l => l.size.getD 0)).sum

/-- PolymarketFeed.normalizeOrderbook: reject when either side is empty;
sort both sides; reject when a best price is NaN or nonpositive;
otherwise produce the normalized data with mid price, spread in bps and
top-N depth. -/
def normalizeOrderbook (cfg : PollConfig) (now : ℤ) (ob : PolyOrderbook) :
    Option PolyMarketData :=
  if ob.bids.isEmpty || ob.asks.isEmpty then none
  else
    let sortedBids := sortBidsDesc ob.bids
    let sortedAsks := sortAsksAsc ob.asks
    match (sortedBids.headI).price, (sortedAsks.headI).price with
    | some bestBid, some bestAsk =>
      if bestBid ≤ 0 ∨ bestAsk ≤ 0 then none
      else
        let midPrice := (bestBid + bestAsk) / 2
        let spreadBps := (bestAsk - bestBid) / midPrice * 10000
        some { tokenId := cfg.tokenId
               midPrice := midPrice
               bestBid := bestBid
               bestAsk := bestAsk
               spreadBps := spreadBps
               depthTopN := calculateDepth cfg.depthLevels sortedBids sortedAsks
               tsLocal := now }
    | _, _ => none

/-- Mutable state of PolymarketFeed relevant to polling. -/
structure PollState where
  inFlight : Bool
  isRunning : Bool
  consecutiveErrors : ℕ
  currentBackoffMs : ℤ
deriving DecidableEq, Repr

/-- Constructor-time state of PolymarketFeed. -/
def initPollState : PollState := ⟨false, false, 0, 0⟩

/-- Observable part of one handlePollError call: the error counter and
next backoff reported in the poly.poll.error log, and whether the
distinct poly.poll.backoff notice fired. -/
structure PollErrorLog where
  consecutiveErrors : ℕ
  nextBackoffMs : ℤ
  backoffNotice : Bool
deriving DecidableEq, Repr

/-- PolymarketFeed.handlePollError: increment consecutiveErrors, set the
backoff to the base interval doubled per error beyond the first, capped
at maxBackoffMs, and fire the backoff notice once more than one
consecutive error has occurred. -/
def handlePollError (cfg : PollConfig) (st : PollState) : PollState × PollErrorLog :=
  let e := st.consecutiveErrors + 1
  let backoffMs := min (cfg.baseIntervalMs * 2 ^ (e - 1)) maxBackoffMs
  ({ st with consecutiveErrors := e, currentBackoffMs := backoffMs },
   { consecutiveErrors := e, nextBackoffMs := backoffMs, backoffNotice := 1 < e })

/-- Result of the awaited client.getOrderbook call inside one poll:
the client threw, returned no data, or returned an orderbook. -/
inductive FetchResult
  | fetchFailure
  | noData
  | book (ob : PolyOrderbook)
deriving Repr

/-- Observable outcome of one poll call: skipped by the in-flight guard,
a poly.snapshot log of normalized data, or a handled poll error. -/
inductive PollOutcome
  | skipped
  | snapshot (d : PolyMarketData)
  | pollError (lg : PollErrorLog)
deriving Repr

/-- PolymarketFeed.poll as a step on the poll state, parameterized by the
fetch result the awaited call would deliver.  The returned Bool records
whether a fetch was initiated.  The in-flight flag is raised before the
fetch and lowered in the finally block, hence it is lowered in every
non-skipped branch. -/
def poll (cfg : PollConfig) (st : PollState) (now : ℤ) (res : FetchResult) :
    PollState × PollOutcome × Bool :=
  if st.inFlight then (st, .skipped, false)
  else
    match res with
    | .fetchFailure =>
      let (st1, lg) := handlePollError cfg st
      ({ st1 with inFlight := false }, .pollError lg, true)
    | .noData =>
      let (st1, lg) := handlePollError cfg st
      ({ st1 with inFlight := false }, .pollError lg, true)
    | .book ob =>
      match normalizeOrderbook cfg now ob with
      | some d =>
        ({ st with inFlight := false, consecutiveErrors := 0, currentBackoffMs := 0 },
         .snapshot d, true)
      | none =>
        let (st1, lg) := handlePollError cfg st
        ({ st1 with inFlight := false }, .pollError lg, true)

/-- Prefix of PolymarketFeed.poll up to the point where the fetch would
be issued: the in-flight guard either skips (state untouched, no fetch)
or raises the flag and initiates the fetch. -/
def pollBegin (st : PollState) : PollState × Bool :=
  if st.inFlight then (st, false) else ({ st with inFlight := true }, true)

/-- Repeated poll beginnings while no completion ever arrives (a fetch
that never resolves): returns the final state and how many fetches the n
attempted cycles initiated. -/
def pollBeginTrace (st : PollState) : ℕ → PollState × ℕ
  | 0 => (st, 0)
  | n + 1 =>
    let p := pollBegin st
    let q := pollBeginTrace p.1 n
    (q.1, q.2 + if p.2 then 1 else 0)

/-- PolymarketFeed.schedulePoll delay choice: the current backoff when
positive, otherwise the base interval. -/
def pollDelay (cfg : PollConfig) (st : PollState) : ℤ :=
  if 0 < st.currentBackoffMs then st.currentBackoffMs else cfg.baseIntervalMs

/-! Part 3: the latency signal engine (src/strategy/latency_signal.ts). -/

/-- PolySnapshot of src/strategy/types.ts, with the fields the engine
reads: token id, mid price, spread in bps, top-N depth, timestamp. -/
structure PolySnapshot where
  tokenId : String
  midPrice : ℚ
  spreadBps : ℚ
  depthTopN : ℚ
  timestamp : ℤ
deriving DecidableEq, Repr, Inhabited

/-- The engine configuration values read from env: ARB_MIN_POLY_DEPTH,
ARB_MAX_POLY_SPREAD_BPS, ARB_MIN_EDGE_BPS, ARB_COOLDOWN_MS. -/
structure EngineConfig where
  minPolyDepth : ℚ
  maxPolySpreadBps : ℚ
  minEdgeBps : ℚ
  cooldownMs : ℤ
deriving Repr

/-- The fixed snapshotWindowMs field of LatencySignalEngine (60 s). -/
def snapshotWindowMs : ℤ := 60000

/-- Mutable state of LatencySignalEngine. -/
structure EngineState where
  polySnapshots : List PolySnapshot
  lastSignalTime : ℤ
deriving DecidableEq, Repr

/-- Constructor-time state of LatencySignalEngine: empty history and
lastSignalTime 0. -/
def initEngineState : EngineState := ⟨[], 0⟩

/-- LatencySignalEngine.updatePolySnapshot: push the snapshot, then keep
only entries whose timestamp is at least now minus the snapshot window. -/
def updatePolySnapshot (st : EngineState) (now : ℤ) (snapshot : PolySnapshot) :
    EngineState :=
  let buf := st.polySnapshots ++ [snapshot]
  let cutoff := now - snapshotWindowMs
  { st with polySnapshots := buf.filter (fun s => cutoff ≤ s.timestamp) }

/-- LatencySignalEngine.getLatestPolySnapshot: none on an empty history,
otherwise the last entry. -/
def getLatestPolySnapshot (st : EngineState) : Option PolySnapshot :=
  if st.polySnapshots.length = 0 then none
  else some st.polySnapshots.getLastI

/-- LatencySignalEngine.calculatePolyMovement: 0 when the history holds
fewer than two entries, otherwise the bps move from the oldest to the
latest entry. -/
def calculatePolyMovement (st : EngineState) : ℚ :=
  if st.polySnapshots.length < 2 then 0
  else
    let oldest := st.polySnapshots.headI
    let latest := st.polySnapshots.getLastI
    (latest.midPrice / oldest.midPrice - 1) * 10000

/-- DiscardReason of src/strategy/types.ts. -/
inductive DiscardReason
  | no_poly_snapshot
  | wide_spread
  | low_depth
  | cooldown
  | insufficient_edge
deriving DecidableEq, Repr

/-- ArbSignal of src/strategy/types.ts. -/
structure ArbSignal where
  timestamp : ℤ
  spotSymbol : String
  spotPrice : ℚ
  spotMoveBps : ℚ
  spotDirection : Direction
  polyTokenId : String
  polyMidPrice : ℚ
  polySpreadBps : ℚ
  polyDepth : ℚ
  edgeBps : ℚ
deriving DecidableEq, Repr

/-- Observable outcome of one processSpotMove call: a single discard log
or a single emitted signal. -/
inductive MoveOutcome
  | discarded (reason : DiscardReason)
  | emitted (signal : ArbSignal)
deriving DecidableEq, Repr

/-- LatencySignalEngine.processSpotMove: the ordered gate pipeline.  Each
early return of the source is one branch; only the final emit branch
updates lastSignalTime. -/
def processSpotMove (cfg : EngineConfig) (st : EngineState) (now : ℤ)
    (symbol : String) (price moveBps : ℚ) (direction : Direction) :
    EngineState × MoveOutcome :=
  match getLatestPolySnapshot st with
  | none => (st, .discarded .no_poly_snapshot)
  | some latestPoly =>
    if cfg.maxPolySpreadBps < latestPoly.spreadBps then
      (st, .discarded .wide_spread)
    else if latestPoly.depthTopN < cfg.minPolyDepth then
      (st, .discarded .low_depth)
    else if now - st.lastSignalTime < cfg.cooldownMs then
      (st, .discarded .cooldown)
    else
      let polyMoveBps := calculatePolyMovement st
      let edgeBps := |moveBps| - |polyMoveBps|
      if edgeBps < cfg.minEdgeBps then
        (st, .discarded .insufficient_edge)
      else
        ({ st with lastSignalTime := now },
         .emitted { timestamp := now
                    spotSymbol := symbol
                    spotPrice := price
                    spotMoveBps := moveBps
                    spotDirection := direction
                    polyTokenId := latestPoly.tokenId
                    polyMidPrice := latestPoly.midPrice
                    polySpreadBps := latestPoly.spreadBps
                    polyDepth := latestPoly.depthTopN
                    edgeBps := edgeBps })

/-- The counterpart-movement formula exactly as the specification states
it: polyMoveBps is ((latest.midPrice / oldest.midPrice) - 1) * 10000
computed from the oldest and newest entries currently in the history, and
0 whenever the history holds fewer than two entries. -/
def specPolyMoveBps (hist : List PolySnapshot) : ℚ :=
  if 2 ≤ hist.length then
    match hist.head?, hist.getLast? with
    | some oldest, some latest => (latest.midPrice / oldest.midPrice - 1) * 10000
    | _, _ => 0
  else 0

/-- Invariant of the per-symbol feed state: residents are strictly
increasing in local time along arrival order, and none is newer than the
last admission time. -/
def FeedInv (st : FeedSymState) : Prop :=
  st.buffer.Pairwise (fun a b => a.tsLocal < b.tsLocal) ∧
  ∀ x ∈ st.buffer, x.tsLocal ≤ st.lastSampleTime

/-- State after n consecutive poll errors starting from a fresh feed. -/
def backoffIter (cfg : PollConfig) : ℕ → PollState
  | 0 => initPollState
  | n + 1 => (handlePollError cfg (backoffIter cfg n)).1

/-! Helper lemmas shared by the theorems below. -/

/-- The latest-snapshot accessor returns none exactly on an empty history. -/
theorem getLatestPolySnapshot_eq_none_iff (st : EngineState) :
    getLatestPolySnapshot st = none ↔ st.polySnapshots = [] := by
  simp [getLatestPolySnapshot, List.length_eq_zero]

/-- C1.  Every processSpotMove call evaluates the five gates in the fixed
order no_poly_snapshot, wide_spread, low_depth, cooldown,
insufficient_edge; the first failing gate is the unique discard reason
of the call, an emitted signal arises exactly when all gates pass, and
with empty snapshot history the reason is always no_poly_snapshot. -/
theorem processSpotMove_gate_pipeline (cfg : EngineConfig) (st : EngineState)
    (now : ℤ) (symbol : String) (price moveBps : ℚ) (direction : Direction) :
    ((processSpotMove cfg st now symbol price moveBps direction).2 =
        .discarded .no_poly_snapshot ↔ st.polySnapshots = []) ∧
    ∀ p, getLatestPolySnapshot st = some p →
      (((processSpotMove cfg st now symbol price moveBps direction).2 =
          .discarded .wide_spread ↔ cfg.maxPolySpreadBps < p.spreadBps) ∧
       ((processSpotMove cfg st now symbol price moveBps direction).2 =
          .discarded .low_depth ↔
          p.spreadBps ≤ cfg.maxPolySpreadBps ∧ p.depthTopN < cfg.minPolyDepth) ∧
       ((processSpotMove cfg st now symbol price moveBps direction).2 =
          .discarded .cooldown ↔
          p.spreadBps ≤ cfg.maxPolySpreadBps ∧ cfg.minPolyDepth ≤ p.depthTopN ∧
          now - st.lastSignalTime < cfg.cooldownMs) ∧
       ((processSpotMove cfg st now symbol price moveBps direction).2 =
          .discarded .insufficient_edge ↔
          p.spreadBps ≤ cfg.maxPolySpreadBps ∧ cfg.minPolyDepth ≤ p.depthTopN ∧
          cfg.cooldownMs ≤ now - st.lastSignalTime ∧
          |moveBps| - |calculatePolyMovement st| < cfg.minEdgeBps) ∧
       ((∃ sig, (processSpotMove cfg st now symbol price moveBps direction).2 =
          .emitted sig) ↔
          p.spreadBps ≤ cfg.maxPolySpreadBps ∧ cfg.minPolyDepth ≤ p.depthTopN ∧
          cfg.cooldownMs ≤ now - st.lastSignalTime ∧
          cfg.minEdgeBps ≤ |moveBps| - |calculatePolyMovement st|)) := by
  cases h : getLatestPolySnapshot st with
  | none =>
    have hnil : st.polySnapshots = [] := (getLatestPolySnapshot_eq_none_iff st).mp h
    refine ⟨by simp [processSpotMove, h, hnil], ?_⟩
    intro p hp
    simp at hp
  | some q =>
    have hne : ¬ st.polySnapshots = [] := by
      intro hnil
      rw [(getLatestPolySnapshot_eq_none_iff st).mpr hnil] at h
      exact absurd h (by simp)
    constructor
    · simp only [processSpotMove, h]
      split_ifs <;> simp [hne]
    · intro p hp
      injection hp with hqp
      subst hqp
      simp only [processSpotMove, h]
      split_ifs with h1 h2 h3 h4
      · exact ⟨iff_of_true rfl h1,
          iff_of_false (by simp) (fun hc => absurd h1 (not_lt.mpr hc.1)),
          iff_of_false (by simp) (fun hc => absurd h1 (not_lt.mpr hc.1)),
          iff_of_false (by simp) (fun hc => absurd h1 (not_lt.mpr hc.1)),
          iff_of_false (by simp) (fun hc => absurd h1 (not_lt.mpr hc.1))⟩
      · exact ⟨iff_of_false (by simp) h1,
          iff_of_true rfl ⟨le_of_not_lt h1, h2⟩,
          iff_of_false (by simp) (fun hc => absurd h2 (not_lt.mpr hc.2.1)),
          iff_of_false (by simp) (fun hc => absurd h2 (not_lt.mpr hc.2.1)),
          iff_of_false (by simp) (fun hc => absurd h2 (not_lt.mpr hc.2.1))⟩
      · exact ⟨iff_of_false (by simp) h1,
          iff_of_false (by simp) (fun hc => h2 hc.2),
          iff_of_true rfl ⟨le_of_not_lt h1, le_of_not_lt h2, h3⟩,
          iff_of_false (by simp) (fun hc => absurd h3 (not_lt.mpr hc.2.2.1)),
          iff_of_false (by simp) (fun hc => absurd h3 (not_lt.mpr hc.2.2.1))⟩
      · exact ⟨iff_of_false (by simp) h1,
          iff_of_false (by simp) (fun hc => h2 hc.2),
          iff_of_false (by simp) (fun hc => h3 hc.2.2),
          iff_of_true rfl ⟨le_of_not_lt h1, le_of_not_lt h2, le_of_not_lt h3, h4⟩,
          iff_of_false (by simp) (fun hc => absurd h4 (not_lt.mpr hc.2.2.2))⟩
      · exact ⟨iff_of_false (by simp) h1,
          iff_of_false (by simp) (fun hc => h2 hc.2),
          iff_of_false (by simp) (fun hc => h3 hc.2.2),
          iff_of_false (by simp) (fun hc => h4 hc.2.2.2),
          iff_of_true ⟨_, rfl⟩
            ⟨le_of_not_lt h1, le_of_not_lt h2, le_of_not_lt h3, le_of_not_lt h4⟩⟩

/-- Witness for C1 at concrete inputs: with empty history the reason is
no_poly_snapshot, and with a single wide-spread snapshot it is
wide_spread. -/
theorem processSpotMove_gate_pipeline_witness :
    (processSpotMove ⟨50, 80, 20, 15000⟩ ⟨[], 0⟩ 100000 "BTCUSDT" 100 1000 .up).2 =
      .discarded .no_poly_snapshot ∧
    (processSpotMove ⟨50, 80, 20, 15000⟩ ⟨[⟨"tok", 1/2, 100, 10, 0⟩], 0⟩ 100000
        "BTCUSDT" 100 1000 .up).2 = .discarded .wide_spread := by
  constructor
  · exact (processSpotMove_gate_pipeline ⟨50, 80, 20, 15000⟩ ⟨[], 0⟩ 100000
      "BTCUSDT" 100 1000 .up).1.mpr rfl
  · refine ((processSpotMove_gate_pipeline ⟨50, 80, 20, 15000⟩
      ⟨[⟨"tok", 1/2, 100, 10, 0⟩], 0⟩ 100000 "BTCUSDT" 100 1000 .up).2
      ⟨"tok", 1/2, 100, 10, 0⟩ ?_).1.mpr (by norm_num)
    norm_num [getLatestPolySnapshot, List.getLastI]

/-- The engine movement calculation agrees with the formula of the
specification on every state. -/
theorem calcPolyMovement_eq_spec (st : EngineState) :
    calculatePolyMovement st = specPolyMoveBps st.polySnapshots := by
  cases hl : st.polySnapshots with
  | nil => simp [calculatePolyMovement, specPolyMoveBps, hl]
  | cons a rest =>
    cases rest with
    | nil => simp [calculatePolyMovement, specPolyMoveBps, hl]
    | cons b t =>
      obtain ⟨x, hx⟩ : ∃ x, (a :: b :: t).getLast? = some x := by
        cases hgl : (a :: b :: t).getLast? with
        | none => simp at hgl
        | some x => exact ⟨x, rfl⟩
      have h1 : ¬ ((a :: b :: t).length < 2) := by simp
      have h2 : (2 : ℕ) ≤ (a :: b :: t).length := by simp
      simp [calculatePolyMovement, specPolyMoveBps, hl, h1, h2, hx,
        List.getLastI_eq_getLast?, List.headI]

/-- C6.  The edge used by the signal engine is edgeBps equal to the
absolute spot move minus the absolute counterpart move, where the
counterpart move follows the specification formula over the oldest and
newest history entries and is 0 with fewer than two entries: the code
movement function equals the spec formula, every emitted signal carries
exactly that edge, and the insufficient_edge discard fires exactly on
that edge falling below the minimum. -/
theorem processSpotMove_edge_formula (cfg : EngineConfig) (st : EngineState)
    (now : ℤ) (symbol : String) (price moveBps : ℚ) (direction : Direction) :
    calculatePolyMovement st = specPolyMoveBps st.polySnapshots ∧
    (∀ sig, (processSpotMove cfg st now symbol price moveBps direction).2 =
        .emitted sig →
      sig.edgeBps = |moveBps| - |specPolyMoveBps st.polySnapshots|) ∧
    ((processSpotMove cfg st now symbol price moveBps direction).2 =
        .discarded .insufficient_edge →
      |moveBps| - |specPolyMoveBps st.polySnapshots| < cfg.minEdgeBps) := by
  refine ⟨calcPolyMovement_eq_spec st, ?_, ?_⟩
  · intro sig hsig
    rw [← calcPolyMovement_eq_spec]
    cases h : getLatestPolySnapshot st with
    | none => simp [processSpotMove, h] at hsig
    | some q =>
      simp only [processSpotMove, h] at hsig
      split_ifs at hsig
      simp_all
      subst hsig
      rfl
  · intro hdisc
    rw [← calcPolyMovement_eq_spec]
    cases h : getLatestPolySnapshot st with
    | none => simp [processSpotMove, h] at hdisc
    | some q =>
      simp only [processSpotMove, h] at hdisc
      split_ifs at hdisc <;> simp_all

/-- Witness for C6 at concrete inputs: two snapshots with mid prices 1/2
then 3/5 give a counterpart move of 2000 bps, so a 2500 bps spot move is
emitted with edge 500. -/
theorem processSpotMove_edge_formula_witness :
    (⟨20000, "BTCUSDT", 100, 2500, .up, "tok", 3/5, 10, 100, 500⟩ : ArbSignal).edgeBps =
      |(2500 : ℚ)| -
        |specPolyMoveBps [⟨"tok", 1/2, 10, 100, 0⟩, ⟨"tok", 3/5, 10, 100, 1000⟩]| := by
  refine (processSpotMove_edge_formula ⟨50, 80, 20, 15000⟩
    ⟨[⟨"tok", 1/2, 10, 100, 0⟩, ⟨"tok", 3/5, 10, 100, 1000⟩], 0⟩ 20000
    "BTCUSDT" 100 2500 .up).2.1
    ⟨20000, "BTCUSDT", 100, 2500, .up, "tok", 3/5, 10, 100, 500⟩ ?_
  norm_num [processSpotMove, getLatestPolySnapshot, calculatePolyMovement,
    List.getLastI, List.headI]

/-- C7.  After an emitted signal at time t, with non-empty history and
passing spread and depth gates, a move at t + cooldownMs - 1 is discarded
as cooldown while a move at t + cooldownMs passes the cooldown gate and
is evaluated normally (insufficient_edge or an emitted signal); an
emitted signal at now sets lastSignalTime to now; and the initial
lastSignalTime 0 never blocks an evaluation at any epoch time at or past
the cooldown span. -/
theorem processSpotMove_cooldown_boundary (cfg : EngineConfig) (st : EngineState)
    (t : ℤ) (q : PolySnapshot) (symbol : String) (price moveBps : ℚ)
    (direction : Direction)
    (hlast : st.lastSignalTime = t)
    (hq : getLatestPolySnapshot st = some q)
    (hs : q.spreadBps ≤ cfg.maxPolySpreadBps)
    (hd : cfg.minPolyDepth ≤ q.depthTopN) :
    (processSpotMove cfg st (t + cfg.cooldownMs - 1) symbol price moveBps
        direction).2 = .discarded .cooldown ∧
    ((processSpotMove cfg st (t + cfg.cooldownMs) symbol price moveBps
        direction).2 = .discarded .insufficient_edge ∨
      ∃ sig, (processSpotMove cfg st (t + cfg.cooldownMs) symbol price moveBps
        direction).2 = .emitted sig) ∧
    (∀ now sig st2, processSpotMove cfg st now symbol price moveBps direction =
        (st2, .emitted sig) → st2.lastSignalTime = now) ∧
    initEngineState.lastSignalTime = 0 ∧
    (∀ now0 snaps, cfg.cooldownMs ≤ now0 →
      (processSpotMove cfg ⟨snaps, 0⟩ now0 symbol price moveBps direction).2 ≠
        .discarded .cooldown) := by
  refine ⟨?_, ?_, ?_, rfl, ?_⟩
  · have hc : t + cfg.cooldownMs - 1 - st.lastSignalTime < cfg.cooldownMs := by
      rw [hlast]; omega
    simp only [processSpotMove, hq]
    rw [if_neg (not_lt.mpr hs), if_neg (not_lt.mpr hd), if_pos hc]
  · have hc : ¬ (t + cfg.cooldownMs - st.lastSignalTime < cfg.cooldownMs) := by
      rw [hlast]; omega
    simp only [processSpotMove, hq]
    rw [if_neg (not_lt.mpr hs), if_neg (not_lt.mpr hd), if_neg hc]
    by_cases he : |moveBps| - |calculatePolyMovement st| < cfg.minEdgeBps
    · rw [if_pos he]; exact Or.inl rfl
    · rw [if_neg he]; exact Or.inr ⟨_, rfl⟩
  · intro now sig st2 heq
    simp only [processSpotMove, hq] at heq
    split_ifs at heq <;> injection heq with ha hb <;>
      first
        | (subst ha; rfl)
        | injection hb
  · intro now0 snaps hn
    cases h : getLatestPolySnapshot ⟨snaps, 0⟩ with
    | none => simp [processSpotMove, h]
    | some p =>
      simp only [processSpotMove, h]
      split_ifs with h1 h2 h3 h4 <;> simp_all
      omega

/-- Witness for C7 at concrete inputs: signal time 1000, cooldown
15000 ms; a move at 15999 is discarded as cooldown. -/
theorem processSpotMove_cooldown_boundary_witness :
    (processSpotMove ⟨50, 80, 20, 15000⟩ ⟨[⟨"tok", 1/2, 10, 100, 0⟩], 1000⟩ 15999
        "BTCUSDT" 100 30 .up).2 = .discarded .cooldown := by
  have hw := processSpotMove_cooldown_boundary ⟨50, 80, 20, 15000⟩
    ⟨[⟨"tok", 1/2, 10, 100, 0⟩], 1000⟩ 1000 ⟨"tok", 1/2, 10, 100, 0⟩
    "BTCUSDT" 100 30 .up rfl
    (by norm_num [getLatestPolySnapshot, List.getLastI]) (by norm_num) (by norm_num)
  exact hw.1

/-- C10.  processSpotMove never modifies the snapshot history, its
resulting lastSignalTime is the call time exactly on an emitted signal
and the previous value on every discard (so every discard leaves the
whole engine state unchanged), and updatePolySnapshot only appends the
new snapshot and prunes by the 60 s window, leaving lastSignalTime
untouched. -/
theorem processSpotMove_frame (cfg : EngineConfig) (st : EngineState) (now : ℤ)
    (symbol : String) (price moveBps : ℚ) (direction : Direction)
    (snap : PolySnapshot) (now2 : ℤ) :
    (processSpotMove cfg st now symbol price moveBps direction).1.polySnapshots =
      st.polySnapshots ∧
    (processSpotMove cfg st now symbol price moveBps direction).1.lastSignalTime =
      (match (processSpotMove cfg st now symbol price moveBps direction).2 with
       | .emitted _ => now
       | .discarded _ => st.lastSignalTime) ∧
    (∀ r st2, processSpotMove cfg st now symbol price moveBps direction =
        (st2, .discarded r) → st2 = st) ∧
    (updatePolySnapshot st now2 snap).lastSignalTime = st.lastSignalTime ∧
    (updatePolySnapshot st now2 snap).polySnapshots =
      (st.polySnapshots ++ [snap]).filter
        (fun s => now2 - snapshotWindowMs ≤ s.timestamp) := by
  refine ⟨?_, ?_, ?_, rfl, rfl⟩
  · cases h : getLatestPolySnapshot st with
    | none => simp [processSpotMove, h]
    | some q =>
      simp only [processSpotMove, h]
      split_ifs <;> simp
  · cases h : getLatestPolySnapshot st with
    | none => simp [processSpotMove, h]
    | some q =>
      simp only [processSpotMove, h]
      split_ifs <;> simp
  · intro r st2 heq
    cases h : getLatestPolySnapshot st with
    | none =>
      simp only [processSpotMove, h] at heq
      injection heq with ha hb
      exact ha.symm
    | some q =>
      simp only [processSpotMove, h] at heq
      split_ifs at heq <;> injection heq with ha hb <;>
        first
          | exact ha.symm
          | injection hb

/-- Witness for C10 at concrete inputs: a discarded call returns the
state unchanged. -/
theorem processSpotMove_frame_witness :
    (processSpotMove ⟨50, 80, 20, 15000⟩ ⟨[], 5⟩ 777 "X" 1 2 .down).1.polySnapshots =
      ([] : List PolySnapshot) ∧
    (⟨[], 5⟩ : EngineState) = ⟨[], 5⟩ := by
  have hw := processSpotMove_frame ⟨50, 80, 20, 15000⟩ ⟨[], 5⟩ 777 "X" 1 2 .down
    ⟨"tok", 1, 1, 1, 0⟩ 0
  exact ⟨hw.1, hw.2.2.1 .no_poly_snapshot ⟨[], 5⟩ rfl⟩

/-- The move-event component of processTick, written against the
resulting state: definitional unfolding used by the feed theorems. -/
theorem processTick_snd_eq (cfg : FeedConfig) (st : FeedSymState) (tick : SpotTick) :
    (processTick cfg st tick).2 =
      (if 1 < (processTick cfg st tick).1.buffer.length then
        if (4 : ℚ) / 5 * (cfg.returnWindowMs : ℚ) ≤
            ((calculateReturn tick (processTick cfg st tick).1.buffer.headI).windowMs : ℚ) ∧
            cfg.moveThresholdBps ≤
              |(calculateReturn tick (processTick cfg st tick).1.buffer.headI).returnBps| then
          some (calculateReturn tick (processTick cfg st tick).1.buffer.headI)
        else none
      else none) := rfl

/-- C2.  A move event is emitted by processTick only when the window
spans at least 80 percent of the configured return window and the
absolute return meets the move threshold; in particular an under-filled
window never emits. -/
theorem processTick_move_gating (cfg : FeedConfig) (st : FeedSymState)
    (tick : SpotTick) :
    ∀ r, (processTick cfg st tick).2 = some r →
      (4 : ℚ) / 5 * (cfg.returnWindowMs : ℚ) ≤ (r.windowMs : ℚ) ∧
      cfg.moveThresholdBps ≤ |r.returnBps| := by
  intro r hr
  rw [processTick_snd_eq] at hr
  split_ifs at hr with h1 h2
  obtain rfl := Option.some.inj hr
  exact h2

/-- Witness for C2 at concrete inputs: window 125 ms, sample spacing
100 ms, threshold 50 bps; a second admitted tick 101 ms after the first
with a 10 percent rise emits a move with window 101 ms and 1000 bps. -/
theorem processTick_move_gating_witness :
    (4 : ℚ) / 5 * ((125 : ℤ) : ℚ) ≤
      (((⟨"BTCUSDT", 110, 100, 1000, .up, 101⟩ : PriceReturn).windowMs : ℤ) : ℚ) ∧
    (50 : ℚ) ≤ |(⟨"BTCUSDT", 110, 100, 1000, .up, 101⟩ : PriceReturn).returnBps| := by
  refine processTick_move_gating ⟨100, 125, 50⟩
    ⟨[⟨"BTCUSDT", 100, 0, 100⟩], some 100, 100⟩ ⟨"BTCUSDT", 110, 0, 201⟩
    ⟨"BTCUSDT", 110, 100, 1000, .up, 101⟩ ?_
  norm_num [processTick, calculateReturn, pruneWindow, List.headI]

/-- C3 counterexample.  A tick rejected by the downsample gate still
triggers a return computation: from the reachable state holding residents
at prices 100 and 110, a rejected tick at price 120 emits a move whose
return (2000 bps) and window (102 ms) are computed against the incoming
non-resident tick, not the newest resident (which would give 1000 bps and
101 ms), and the window was not mutated by the call. -/
theorem processTick_return_counterexample :
    processTicks ⟨100, 125, 50⟩ initFeedSymState
        [⟨"BTCUSDT", 100, 0, 100⟩, ⟨"BTCUSDT", 110, 0, 201⟩] =
      ⟨[⟨"BTCUSDT", 100, 0, 100⟩, ⟨"BTCUSDT", 110, 0, 201⟩], some 110, 201⟩ ∧
    (processTick ⟨100, 125, 50⟩
        ⟨[⟨"BTCUSDT", 100, 0, 100⟩, ⟨"BTCUSDT", 110, 0, 201⟩], some 110, 201⟩
        ⟨"BTCUSDT", 120, 0, 202⟩).1.buffer =
      [⟨"BTCUSDT", 100, 0, 100⟩, ⟨"BTCUSDT", 110, 0, 201⟩] ∧
    (processTick ⟨100, 125, 50⟩
        ⟨[⟨"BTCUSDT", 100, 0, 100⟩, ⟨"BTCUSDT", 110, 0, 201⟩], some 110, 201⟩
        ⟨"BTCUSDT", 120, 0, 202⟩).2 =
      some ⟨"BTCUSDT", 120, 100, 2000, .up, 102⟩ ∧
    (2000 : ℚ) ≠
      ((⟨"BTCUSDT", 110, 0, 201⟩ : SpotTick).price /
        (⟨"BTCUSDT", 100, 0, 100⟩ : SpotTick).price - 1) * 10000 ∧
    (102 : ℤ) ≠
      (⟨"BTCUSDT", 110, 0, 201⟩ : SpotTick).tsLocal -
        (⟨"BTCUSDT", 100, 0, 100⟩ : SpotTick).tsLocal := by
  refine ⟨?_, ?_, ?_, by norm_num, by norm_num⟩
  · norm_num [processTicks, processTick, calculateReturn, pruneWindow,
      initFeedSymState, List.headI]
  · norm_num [processTick, pruneWindow]
  · norm_num [processTick, calculateReturn, pruneWindow, List.headI]

/-- Elements appended last survive pruning as the last element whenever
they are not older than the cutoff. -/
theorem pruneWindow_getLast (cutoff : ℤ) (l : List SpotTick) (t : SpotTick)
    (h : ¬ t.tsLocal < cutoff) :
    (pruneWindow cutoff (l ++ [t])).getLast? = some t := by
  induction l with
  | nil => simp [pruneWindow, h]
  | cons a l ih =>
    by_cases ha : a.tsLocal < cutoff
    · have hstep : pruneWindow cutoff ((a :: l) ++ [t]) = pruneWindow cutoff (l ++ [t]) := by
        simp [pruneWindow, ha]
      rw [hstep]
      exact ih
    · have hstep : pruneWindow cutoff ((a :: l) ++ [t]) = (a :: l) ++ [t] := by
        simp [pruneWindow, ha]
      rw [hstep, List.getLast?_append_cons]
      simp

/-- C3 amended.  The return is computed after the sampling and pruning
step on every tick whose symbol window then holds at least two ticks; it
is taken between the incoming tick (whether or not it was admitted) and
the oldest resident, with returnBps = ((current/past) - 1) * 10000,
direction up exactly on a positive return, and window equal to the local
elapsed time from the oldest resident to the incoming tick; when the tick
was admitted it is itself the newest resident, and a window whose oldest
resident has price 100 with the incoming newest at 110 yields 1000 bps,
direction up, window t1 - t0. -/
theorem processTick_return_amended (cfg : FeedConfig) (st : FeedSymState)
    (tick : SpotTick) :
    ((processTick cfg st tick).2 ≠ none →
      1 < (processTick cfg st tick).1.buffer.length) ∧
    (∀ r, (processTick cfg st tick).2 = some r →
      r = calculateReturn tick (processTick cfg st tick).1.buffer.headI ∧
      r.currentPrice = tick.price ∧
      r.pastPrice = (processTick cfg st tick).1.buffer.headI.price ∧
      r.returnBps =
        (tick.price / (processTick cfg st tick).1.buffer.headI.price - 1) * 10000 ∧
      (r.direction = .up ↔ 0 < r.returnBps) ∧
      r.windowMs = tick.tsLocal - (processTick cfg st tick).1.buffer.headI.tsLocal) ∧
    (0 ≤ cfg.returnWindowMs →
      cfg.sampleIntervalMs ≤ tick.tsLocal - st.lastSampleTime →
      (processTick cfg st tick).1.buffer.getLast? = some tick) ∧
    (∀ sym e1 e2 t0 t1, calculateReturn ⟨sym, 110, e2, t1⟩ ⟨sym, 100, e1, t0⟩ =
      ⟨sym, 110, 100, 1000, .up, t1 - t0⟩) := by
  refine ⟨?_, ?_, ?_, ?_⟩
  · intro hne
    by_contra hlen
    rw [processTick_snd_eq, if_neg hlen] at hne
    exact hne rfl
  · intro r hr
    rw [processTick_snd_eq] at hr
    split_ifs at hr with h1 h2
    obtain rfl := Option.some.inj hr
    refine ⟨rfl, rfl, rfl, rfl, ?_, rfl⟩
    simp only [calculateReturn]
    split_ifs with hpos <;> simp [hpos]
  · intro hW hc
    have ht : ¬ tick.tsLocal < tick.tsLocal - cfg.returnWindowMs := by omega
    simp only [processTick, if_pos hc]
    exact pruneWindow_getLast _ _ _ ht
  · intro sym e1 e2 t0 t1
    simp only [calculateReturn, PriceReturn.mk.injEq]
    norm_num

/-- Witness for C3 amended at concrete inputs: the emitted move of the
counterexample state satisfies all amended field equations. -/
theorem processTick_return_amended_witness :
    (⟨"BTCUSDT", 120, 100, 2000, .up, 102⟩ : PriceReturn) =
      calculateReturn ⟨"BTCUSDT", 120, 0, 202⟩
        ((processTick ⟨100, 125, 50⟩
          ⟨[⟨"BTCUSDT", 100, 0, 100⟩, ⟨"BTCUSDT", 110, 0, 201⟩], some 110, 201⟩
          ⟨"BTCUSDT", 120, 0, 202⟩).1.buffer.headI) ∧
    (⟨"BTCUSDT", 120, 100, 2000, .up, 102⟩ : PriceReturn).currentPrice =
      (⟨"BTCUSDT", 120, 0, 202⟩ : SpotTick).price := by
  have hw := (processTick_return_amended ⟨100, 125, 50⟩
    ⟨[⟨"BTCUSDT", 100, 0, 100⟩, ⟨"BTCUSDT", 110, 0, 201⟩], some 110, 201⟩
    ⟨"BTCUSDT", 120, 0, 202⟩).2.1
    ⟨"BTCUSDT", 120, 100, 2000, .up, 102⟩
    (by norm_num [processTick, calculateReturn, pruneWindow, List.headI])
  exact ⟨hw.1, hw.2.1⟩

/-- Pruning only drops elements from the head: the result is a suffix. -/
theorem pruneWindow_suffix (cutoff : ℤ) (l : List SpotTick) :
    pruneWindow cutoff l <:+ l := by
  induction l with
  | nil => simp [pruneWindow]
  | cons t rest ih =>
    simp only [pruneWindow]
    split_ifs
    · exact ih.trans (List.suffix_cons t rest)
    · exact List.suffix_refl _

/-- On a time-sorted list every survivor of the prune is at or past the
cutoff. -/
theorem pruneWindow_bound (cutoff : ℤ) (l : List SpotTick)
    (hs : l.Pairwise (fun a b => a.tsLocal < b.tsLocal)) :
    ∀ x ∈ pruneWindow cutoff l, cutoff ≤ x.tsLocal := by
  induction l with
  | nil => simp [pruneWindow]
  | cons t rest ih =>
    simp only [pruneWindow]
    split_ifs with ht
    · exact ih (List.Pairwise.of_cons hs)
    · intro x hx
      rcases List.mem_cons.mp hx with rfl | hx
      · omega
      · have := (List.pairwise_cons.mp hs).1 x hx
        omega

/-- One processTick call preserves the feed invariant. -/
theorem feedInv_processTick (cfg : FeedConfig) (st : FeedSymState) (tick : SpotTick)
    (hS : 0 < cfg.sampleIntervalMs) (h : FeedInv st) :
    FeedInv (processTick cfg st tick).1 := by
  by_cases hc : cfg.sampleIntervalMs ≤ tick.tsLocal - st.lastSampleTime
  · simp only [processTick, if_pos hc]
    constructor
    · refine List.Pairwise.sublist (pruneWindow_suffix _ _).sublist ?_
      refine List.pairwise_append.mpr ⟨h.1, List.pairwise_singleton _ _, ?_⟩
      intro a ha b hb
      obtain rfl := List.mem_singleton.mp hb
      have := h.2 a ha
      omega
    · intro x hx
      have hx2 := (pruneWindow_suffix _ _).subset hx
      show x.tsLocal ≤ tick.tsLocal
      rcases List.mem_append.mp hx2 with hxa | hxb
      · have := h.2 x hxa
        omega
      · obtain rfl := List.mem_singleton.mp hxb
        exact le_refl _
  · simp only [processTick, if_neg hc]
    exact h

/-- The feed invariant holds along every run from the fresh state. -/
theorem feedInv_processTicks (cfg : FeedConfig) (hS : 0 < cfg.sampleIntervalMs)
    (st : FeedSymState) (h : FeedInv st) (ticks : List SpotTick) :
    FeedInv (processTicks cfg st ticks) := by
  induction ticks generalizing st with
  | nil => exact h
  | cons t rest ih => exact ih _ (feedInv_processTick cfg st t hS h)

/-- C8.  For every sequence of processed ticks the sliding window stays
time-sorted in arrival order; on every admitting call (the only kind that
prunes) the new window is a suffix of the old window with the tick
appended (eviction from the oldest end only) and every resident is at or
past the cutoff now minus the return window; a rejecting call leaves the
window untouched. -/
theorem processTick_window_invariant (cfg : FeedConfig) (st : FeedSymState)
    (tick : SpotTick) (hS : 0 < cfg.sampleIntervalMs) :
    FeedInv initFeedSymState ∧
    (∀ ticks, FeedInv (processTicks cfg initFeedSymState ticks)) ∧
    (FeedInv st →
      FeedInv (processTick cfg st tick).1 ∧
      (processTick cfg st tick).1.buffer.Pairwise
        (fun a b => a.tsLocal < b.tsLocal) ∧
      (cfg.sampleIntervalMs ≤ tick.tsLocal - st.lastSampleTime →
        (processTick cfg st tick).1.buffer <:+ st.buffer ++ [tick] ∧
        ∀ x ∈ (processTick cfg st tick).1.buffer,
          tick.tsLocal - cfg.returnWindowMs ≤ x.tsLocal) ∧
      (¬ cfg.sampleIntervalMs ≤ tick.tsLocal - st.lastSampleTime →
        (processTick cfg st tick).1.buffer = st.buffer)) := by
  refine ⟨⟨List.Pairwise.nil, by simp [initFeedSymState]⟩, ?_, ?_⟩
  · intro ticks
    exact feedInv_processTicks cfg hS initFeedSymState
      ⟨List.Pairwise.nil, by simp [initFeedSymState]⟩ ticks
  · intro h
    refine ⟨feedInv_processTick cfg st tick hS h, ?_, ?_, ?_⟩
    · exact (feedInv_processTick cfg st tick hS h).1
    · intro hc
      constructor
      · simp only [processTick, if_pos hc]
        exact pruneWindow_suffix _ _
      · intro x hx
        simp only [processTick, if_pos hc] at hx
        refine pruneWindow_bound _ _ ?_ x hx
        refine List.pairwise_append.mpr ⟨h.1, List.pairwise_singleton _ _, ?_⟩
        intro a ha b hb
        obtain rfl := List.mem_singleton.mp hb
        have := h.2 a ha
        omega
    · intro hc
      simp only [processTick, if_neg hc]

/-- Witness for C8 at concrete inputs: the two-tick run from the fresh
state satisfies the invariant. -/
theorem processTick_window_invariant_witness :
    FeedInv (processTicks ⟨100, 125, 50⟩ initFeedSymState
      [⟨"BTCUSDT", 100, 0, 100⟩, ⟨"BTCUSDT", 110, 0, 201⟩]) := by
  exact (processTick_window_invariant ⟨100, 125, 50⟩ initFeedSymState
    ⟨"BTCUSDT", 100, 0, 100⟩ (by norm_num)).2.1
    [⟨"BTCUSDT", 100, 0, 100⟩, ⟨"BTCUSDT", 110, 0, 201⟩]

/-- C4.  Orderbook normalization rejects a snapshot exactly when a side
is empty or a best price is unparseable or nonpositive; every snapshot
passing validation yields mid, spread and depth totally (no raise), also
for a crossed book, where the spread comes out negative: the concrete
crossed book of the specification normalizes to bestBid 101, bestAsk 100
and spreadBps -20000/201, about -99.50. -/
theorem normalizeOrderbook_validation (cfg : PollConfig) (now : ℤ)
    (ob : PolyOrderbook) :
    (normalizeOrderbook cfg now ob = none ↔
      ob.bids = [] ∨ ob.asks = [] ∨
      ∀ b a, (sortBidsDesc ob.bids).headI.price = some b →
        (sortAsksAsc ob.asks).headI.price = some a → b ≤ 0 ∨ a ≤ 0) ∧
    (∀ b a, (sortBidsDesc ob.bids).headI.price = some b →
      (sortAsksAsc ob.asks).headI.price = some a →
      ob.bids ≠ [] → ob.asks ≠ [] → 0 < b → 0 < a →
      normalizeOrderbook cfg now ob =
        some ⟨cfg.tokenId, (b + a) / 2, b, a, (a - b) / ((b + a) / 2) * 10000,
          calculateDepth cfg.depthLevels (sortBidsDesc ob.bids)
            (sortAsksAsc ob.asks), now⟩) ∧
    normalizeOrderbook ⟨"tok", 5000, 1⟩ now
        ⟨[⟨some 99, some 5⟩, ⟨some 101, some 3⟩],
          [⟨some 102, some 4⟩, ⟨some 100, some 2⟩]⟩ =
      some ⟨"tok", 201 / 2, 101, 100, -20000 / 201, 5, now⟩ ∧
    ((-20000 : ℚ) / 201 < 0) := by
  refine ⟨?_, ?_, ?_, by norm_num⟩
  · by_cases hb : ob.bids.isEmpty
    · have hb2 : ob.bids = [] := by simpa [List.isEmpty_iff] using hb
      simp [normalizeOrderbook, hb, hb2]
    · by_cases ha : ob.asks.isEmpty
      · have ha2 : ob.asks = [] := by simpa [List.isEmpty_iff] using ha
        simp [normalizeOrderbook, ha, ha2]
      · have hb2 : ¬ ob.bids = [] := by simpa [List.isEmpty_iff] using hb
        have ha2 : ¬ ob.asks = [] := by simpa [List.isEmpty_iff] using ha
        rw [Bool.not_eq_true] at hb ha
        simp only [normalizeOrderbook, hb, ha, Bool.or_self, Bool.false_eq_true,
          if_false]
        cases hpb : (sortBidsDesc ob.bids).headI.price with
        | none =>
          refine iff_of_true (by simp [hpb]) (Or.inr (Or.inr ?_))
          intro b a hb1 ha1
          exact absurd hb1 (by simp)
        | some bb =>
          cases hpa : (sortAsksAsc ob.asks).headI.price with
          | none =>
            refine iff_of_true (by simp [hpb, hpa]) (Or.inr (Or.inr ?_))
            intro b a hb1 ha1
            exact absurd ha1 (by simp)
          | some aa =>
            simp only [hpb, hpa]
            by_cases hle : bb ≤ 0 ∨ aa ≤ 0
            · rw [if_pos hle]
              refine iff_of_true rfl (Or.inr (Or.inr ?_))
              intro b a hb1 ha1
              obtain rfl := Option.some.inj hb1
              obtain rfl := Option.some.inj ha1
              exact hle
            · rw [if_neg hle]
              refine iff_of_false (by simp) ?_
              push_neg at hle
              rintro (h1 | h2 | h3)
              · exact hb2 h1
              · exact ha2 h2
              · rcases h3 bb aa rfl rfl with h | h
                · exact absurd h (not_le.mpr hle.1)
                · exact absurd h (not_le.mpr hle.2)
  · intro b a hpb hpa hbne hane hbpos hapos
    have hb : ob.bids.isEmpty = false := by
      simpa [List.isEmpty_iff] using hbne
    have ha : ob.asks.isEmpty = false := by
      simpa [List.isEmpty_iff] using hane
    have hno : ¬ (b ≤ 0 ∨ a ≤ 0) := by
      push_neg
      exact ⟨hbpos, hapos⟩
    simp only [normalizeOrderbook, hb, ha, Bool.or_self, Bool.false_eq_true,
      if_false, hpb, hpa]
    rw [if_neg hno]
  · norm_num [normalizeOrderbook, sortBidsDesc, sortAsksAsc, List.mergeSort,
      bidCmpLe, askCmpLe, calculateDepth, List.headI]

/-- Witness for C4 at the concrete crossed book: validation passes and
the normalized data carries the crossed-book fields. -/
theorem normalizeOrderbook_validation_witness :
    normalizeOrderbook ⟨"tok", 5000, 1⟩ 0
        ⟨[⟨some 99, some 5⟩, ⟨some 101, some 3⟩],
          [⟨some 102, some 4⟩, ⟨some 100, some 2⟩]⟩ =
      some ⟨"tok", (101 + 100) / 2, 101, 100, (100 - 101) / ((101 + 100) / 2) * 10000,
        calculateDepth 1
          (sortBidsDesc [⟨some 99, some 5⟩, ⟨some 101, some 3⟩])
          (sortAsksAsc [⟨some 102, some 4⟩, ⟨some 100, some 2⟩]), 0⟩ := by
  refine (normalizeOrderbook_validation ⟨"tok", 5000, 1⟩ 0
    ⟨[⟨some 99, some 5⟩, ⟨some 101, some 3⟩],
      [⟨some 102, some 4⟩, ⟨some 100, some 2⟩]⟩).2.1 101 100
    ?_ ?_ (by simp) (by simp) (by norm_num) (by norm_num)
  · norm_num [sortBidsDesc, List.mergeSort, bidCmpLe, List.headI]
  · norm_num [sortAsksAsc, List.mergeSort, askCmpLe, List.headI]

/-- C5.  Every poll error increments consecutiveErrors and sets the
backoff to min of the doubled base interval and 30000 ms, the distinct
backoff notice fires exactly once more than one consecutive error has
occurred, a successful valid poll resets both counters to 0, and six
consecutive errors at base 5000 ms yield backoffs 5000, 10000, 20000,
30000, 30000, 30000. -/
theorem handlePollError_backoff_policy (cfg : PollConfig) (st : PollState)
    (now : ℤ) (ob : PolyOrderbook) (d : PolyMarketData) :
    (handlePollError cfg st).1.consecutiveErrors = st.consecutiveErrors + 1 ∧
    (handlePollError cfg st).1.currentBackoffMs =
      min (cfg.baseIntervalMs * 2 ^ st.consecutiveErrors) 30000 ∧
    ((handlePollError cfg st).2.backoffNotice = true ↔
      1 < st.consecutiveErrors + 1) ∧
    (st.inFlight = false → normalizeOrderbook cfg now ob = some d →
      (poll cfg st now (.book ob)).1.consecutiveErrors = 0 ∧
      (poll cfg st now (.book ob)).1.currentBackoffMs = 0) ∧
    (List.range 6).map
        (fun k => (backoffIter ⟨"t", 5000, 10⟩ (k + 1)).currentBackoffMs) =
      [5000, 10000, 20000, 30000, 30000, 30000] := by
  refine ⟨rfl, rfl, ?_, ?_, by decide⟩
  · simp [handlePollError]
  · intro hf hnorm
    simp [poll, hf, hnorm]

/-- Witness for C5 at concrete inputs: a successful valid poll from the
fresh state leaves both error counters at zero. -/
theorem handlePollError_backoff_policy_witness :
    (poll ⟨"t", 5000, 1⟩ initPollState 0
      (.book ⟨[⟨some (1/2), some 5⟩], [⟨some (3/5), some 4⟩]⟩)).1.consecutiveErrors
        = 0 ∧
    (poll ⟨"t", 5000, 1⟩ initPollState 0
      (.book ⟨[⟨some (1/2), some 5⟩], [⟨some (3/5), some 4⟩]⟩)).1.currentBackoffMs
        = 0 := by
  refine (handlePollError_backoff_policy ⟨"t", 5000, 1⟩ initPollState 0
    ⟨[⟨some (1/2), some 5⟩], [⟨some (3/5), some 4⟩]⟩
    ⟨"t", 11/20, 1/2, 3/5, 20000/11, 9, 0⟩).2.2.2.1 rfl ?_
  norm_num [normalizeOrderbook, sortBidsDesc, sortAsksAsc, List.mergeSort,
    bidCmpLe, askCmpLe, calculateDepth, List.headI]

/-- C9.  A poll cycle beginning while the in-flight flag is set is
skipped entirely: the state is unchanged, no fetch is initiated and
nothing is queued; while a fetch never completes, any number of further
cycle beginnings initiates zero fetches; and a free cycle raises the flag
and initiates exactly its own fetch. -/
theorem poll_no_overlap (cfg : PollConfig) (st : PollState) (now : ℤ)
    (res : FetchResult) (n : ℕ) :
    (st.inFlight = true → poll cfg st now res = (st, .skipped, false)) ∧
    (st.inFlight = true → pollBeginTrace st n = (st, 0)) ∧
    (st.inFlight = false → pollBegin st = ({ st with inFlight := true }, true)) := by
  refine ⟨?_, ?_, ?_⟩
  · intro hf
    simp [poll, hf]
  · intro hf
    induction n with
    | zero => rfl
    | succ m ih =>
      simp [pollBeginTrace, pollBegin, hf, ih]
  · intro hf
    simp [pollBegin, hf]

/-- Witness for C9 at concrete inputs: with the flag set, one poll is a
skip and five repeated beginnings initiate zero fetches. -/
theorem poll_no_overlap_witness :
    poll ⟨"t", 5000, 10⟩ ⟨true, true, 0, 0⟩ 0 .noData =
      (⟨true, true, 0, 0⟩, .skipped, false) ∧
    pollBeginTrace ⟨true, true, 0, 0⟩ 5 = (⟨true, true, 0, 0⟩, 0) := by
  exact ⟨(poll_no_overlap ⟨"t", 5000, 10⟩ ⟨true, true, 0, 0⟩ 0 .noData 5).1 rfl,
    (poll_no_overlap ⟨"t", 5000, 10⟩ ⟨true, true, 0, 0⟩ 0 .noData 5).2.1 rfl⟩

end PolyLatencyArb
